import Mathlib

set_option maxRecDepth 40000

/-!
Verification development for `src/apiserver/fix_protos.py` (stockpicker).

The script reads one hardcoded TypeScript file, defines a table `fixes` of
ten regex rewrite rules (lines 9-48), performs a single literal
`content.replace(old, new)` (lines 51-54), writes the file back (lines
57-58) and prints a completion notice (line 60).  Note that the `fixes`
table is never passed to any substitution call: the only transformation the
script performs on the text is the one literal `str.replace`.

The text is modelled as `List Char`; Python's `str.replace(old, new)` for a
non-empty `old` (scan left to right, replace every non-overlapping match)
is modelled by `pyReplace`.  File I/O is modelled by a map from paths to
optional contents, with an uncaught `IOError` represented by the `err`
outcome.
-/

/-- A rule's replacement in the `fixes` table of `fix_protos.py`: either a
fixed template string (with regex backreferences such as `\1`), or a
function of the captured groups (the Python lambda of the SendOTP rule,
which uses groups 1, 3 and 4 of its match). -/
inductive FixRepl where
  | template (t : String)
  | ofGroups (f : String → String → String → String)

/-- Embedding of the `fixes` list (lines 9-48 of `fix_protos.py`): pairs of
a regex pattern (kept as its literal source text) and a replacement.
Braces inside the strings are written with the escapes `\x7b` and `\x7d`.
This table is bound by the script but never applied to the text: no line of
the script calls `re.sub` (or anything else) with these rules. -/
def fixes : List (String × FixRepl) := [
  ( "(\\s+)(return \\\x7b strategy \\\x7d;)(\\s+\\\x7d[\\s,]+async updateStrategyPrivacy)",
    FixRepl.template ("\\1return create(UpdateStrategyPrivacyResponseSchema, \x7b strategy \x7d);\\3")),
  ( "(async sendOTP[\\s\\S]*?)(return \\\x7b[\\s\\n]+success: (true|false),[\\s\\n]+message: ([^\x7d]+)\\\x7d;)",
    FixRepl.ofGroups (fun g1 g3 g4 =>
      g1 ++ "return create(SendOTPResponseSchema, \x7b success: " ++ g3 ++ ", message: " ++ g4 ++ "\x7d);")),
  ( "return \\\x7b user: (protoUser|undefined) \\\x7d;(?=[\\s\\S]*?async updateUser)",
    FixRepl.template ("return create(GetCurrentUserResponseSchema, \x7b user: \\1 \x7d);")),
  ( "return \\\x7b user: protoUser \\\x7d;(?=[\\s\\S]*?async followUser)",
    FixRepl.template ("return create(UpdateUserResponseSchema, \x7b user: protoUser \x7d);")),
  ( "return \\\x7b success: true \\\x7d;(?=[\\s\\S]*?async unfollowUser)",
    FixRepl.template ("return create(FollowUserResponseSchema, \x7b success: true \x7d);")),
  ( "return \\\x7b success: true \\\x7d;(?=[\\s\\S]*?async listFollowing)",
    FixRepl.template ("return create(UnfollowUserResponseSchema, \x7b success: true \x7d);")),
  ( "return \\\x7b users \\\x7d;(?=[\\s\\S]*?async listFollowers)",
    FixRepl.template ("return create(ListFollowingResponseSchema, \x7b users \x7d);")),
  ( "return \\\x7b users \\\x7d;(?=[\\s\\S]*?async listCloseFriends)",
    FixRepl.template ("return create(ListFollowersResponseSchema, \x7b users \x7d);")),
  ( "return \\\x7b users \\\x7d;(?=[\\s\\S]*?async getUserProfile)",
    FixRepl.template ("return create(ListCloseFriendsResponseSchema, \x7b users \x7d);")),
  ( "return \\\x7b strategy \\\x7d;(?=[\\s\\S]*?^\\\x7d;$)",
    FixRepl.template ("return create(CopyStrategyResponseSchema, \x7b strategy \x7d);"))]

/-- The first argument of the literal `content.replace` call on lines 51-54
of `fix_protos.py`. -/
def oldFrag : List Char :=
  ("return \x7b strategy \x7d;\n  \x7d,\n\n  async updateStrategyPrivacy(").data

/-- The second argument of the literal `content.replace` call on lines
51-54 of `fix_protos.py`. -/
def newFrag : List Char :=
  ("return create(UpdateStrategyPrivacyResponseSchema, \x7b strategy \x7d);\n  \x7d,\n\n  async updateStrategyPrivacy(").data

/-- Fuel-indexed model of Python `str.replace(old, new)` for a non-empty
`old`: scan left to right; at each position, if `old` matches, emit `new`
and continue after the match, otherwise emit one character.  The fuel only
bounds the number of scan steps; `pyReplace` supplies fuel equal to the
length of the text, which is always sufficient. -/
def pyReplaceF (old new : List Char) : Nat → List Char → List Char
  | _, [] => []
  | 0, c :: rest => c :: rest
  | f + 1, c :: rest =>
    if old ≠ [] ∧ old.isPrefixOf (c :: rest) = true then
      new ++ pyReplaceF old new f ((c :: rest).drop old.length)
    else
      c :: pyReplaceF old new f rest

/-- Model of Python `str.replace(old, new)` (all occurrences) for a
non-empty `old`. -/
def pyReplace (old new s : List Char) : List Char := pyReplaceF old new s.length s

/-- The whole text transformation performed by `fix_protos.py` on the file
content (lines 50-54): the single literal `content.replace(oldFrag,
newFrag)`.  The `fixes` table does not occur in the script's dataflow. -/
def fixProtosTransform (t : List Char) : List Char := pyReplace oldFrag newFrag t

/-- `containsSub p s = true` iff the pattern `p` occurs as a contiguous
substring of `s` (for non-empty `p`; `containsSub [] s = true`). -/
def containsSub (p : List Char) : List Char → Bool
  | [] => p.isPrefixOf []
  | c :: rest => p.isPrefixOf (c :: rest) || containsSub p rest

/-- Number of positions of `s` at which the non-empty pattern `p` occurs
(counting every position, as the spec's occurrence count does). -/
def countSub (p : List Char) : List Char → Nat
  | [] => 0
  | c :: rest => (if p.isPrefixOf (c :: rest) = true then 1 else 0) + countSub p rest

/-- Index of the leftmost occurrence of `p` in `s`, if any. -/
def firstMatchIdx (p : List Char) : List Char → Option Nat
  | [] => none
  | c :: rest =>
    if p.isPrefixOf (c :: rest) = true then some 0
    else (firstMatchIdx p rest).map (fun i => i + 1)

/-- Fuel-indexed helper for `replaceEveryOccurrence`: repeatedly splice the
replacement in at the leftmost occurrence and continue after it. -/
def replaceAllAux (p r : List Char) : Nat → List Char → List Char
  | 0, s => s
  | f + 1, s =>
    match firstMatchIdx p s with
    | none => s
    | some i => s.take i ++ r ++ replaceAllAux p r f (s.drop (i + p.length))

/-- Specification-side definition, following the spec's words for the
claimed behaviour: the text with every (leftmost-first, non-overlapping)
occurrence of the literal pattern `p` replaced by `r`. -/
def replaceEveryOccurrence (p r s : List Char) : List Char := replaceAllAux p r s.length s

/-- Specification-side transformation of claim C2: the input with every
occurrence of the literal old fragment replaced by the new fragment. -/
def specTransform (s : List Char) : List Char := replaceEveryOccurrence oldFrag newFrag s

/-- The hardcoded target file path (lines 5 and 57 of `fix_protos.py`). -/
def targetPath : String :=
  "/Users/daronmcintosh/repos/stockpicker/apiserver/src/services/strategyService.ts"

/-- The completion notice printed on line 60 (`print` appends a newline). -/
def completionNotice : String := "Fixed strategyService.ts\n"

/-- Outcome of a run in the I/O model: `ok` with the final filesystem and
the text printed to standard output, or `err` (an uncaught `IOError`) with
the filesystem and standard output as they were at the abort. -/
inductive RunOutcome where
  | ok (fs : String → Option (List Char)) (stdout : String)
  | err (fs : String → Option (List Char)) (stdout : String)

/-- I/O model of a whole run of `fix_protos.py`.  The filesystem is a map
from paths to optional contents; `fs targetPath = none` models the read
`open` raising `IOError` (line 5), and `writable = false` models the write
`open` raising `IOError` (line 57).  The script has no try/except, so
either error aborts the run with nothing further written or printed; on
success the target file is overwritten with the transformed content and the
completion notice is printed.  The script takes no flags and reads no
environment variables, which the model reflects by having no other
inputs. -/
def runFixProtos (fs : String → Option (List Char)) (writable : Bool) : RunOutcome :=
  match fs targetPath with
  | none => RunOutcome.err fs ""
  | some content =>
    if writable then
      RunOutcome.ok
        (fun p => if p = targetPath then some (fixProtosTransform content) else fs p)
        completionNotice
    else
      RunOutcome.err fs ""

/-- Concrete input for claim C1: text matched by the ListFollowing rule of
the `fixes` table (`return \x7b users \x7d;` followed by
`async listFollowers`). -/
def c1Input : List Char :=
  ("    return \x7b users \x7d;\n  \x7d,\n\n  async listFollowers(req) \x7b").data

/-- Concrete input for claim C3: an `async sendOTP` body containing exactly
the fragment of literal scenario 2, matched by the SendOTP rule of the
`fixes` table. -/
def c3Input : List Char :=
  ("  async sendOTP(req) \x7b\n    return \x7b\n  success: true,\n  message: \"ok\"\x7d;\n  \x7d").data

/-- The replacement text claim C3 expects to appear in the output. -/
def c3Expected : List Char :=
  ("return create(SendOTPResponseSchema, \x7b success: true, message: \"ok\"\x7d);").data

/-- Concrete input for claim C4: two identical `return \x7b users \x7d;`
occurrences, the first followed by `async listFollowers` and the second by
`async getUserProfile`, as in literal scenario 3. -/
def c4Input : List Char :=
  ("async listFollowing(req) \x7b\n    return \x7b users \x7d;\n  \x7d,\n\n  async listFollowers(req) \x7b\n    return \x7b users \x7d;\n  \x7d,\n\n  async getUserProfile(req) \x7b\x7d").data

/-- Concrete input for claim C7: text matched by the SendOTP rule of the
`fixes` table (one rule with a match, so the claim predicts one
`return create(` in the output). -/
def c7Input : List Char :=
  ("  async sendOTP(req) \x7b\n    return \x7b\n  success: false,\n  message: msg\x7d;\n  \x7d").data

/-- The substring whose occurrences claim C7 counts. -/
def retCreate : List Char := ("return create(").data

theorem isPre_append_self (p x : List Char) : p.isPrefixOf (p ++ x) = true := by
  induction p with
  | nil => simp [List.isPrefixOf]
  | cons c p ih => simp [List.isPrefixOf, ih]

theorem isPre_iff_take (p : List Char) : ∀ s : List Char, p.isPrefixOf s = true ↔ s.take p.length = p := by
  induction p with
  | nil => intro s; simp [List.isPrefixOf]
  | cons c p ih =>
    intro s
    cases s with
    | nil => simp [List.isPrefixOf]
    | cons b bs =>
      simp only [List.isPrefixOf, Bool.and_eq_true, beq_iff_eq, List.length_cons, List.take,
        List.cons.injEq, ih]
      constructor
      · rintro ⟨h1, h2⟩; exact ⟨h1.symm, h2⟩
      · rintro ⟨h1, h2⟩; exact ⟨h1.symm, h2⟩

theorem take_append_le (a b : List Char) : ∀ n, n ≤ a.length → (a ++ b).take n = a.take n := by
  induction a with
  | nil =>
    intro n hn
    have : n = 0 := Nat.le_zero.mp hn
    subst this; simp
  | cons c a ih =>
    intro n hn
    cases n with
    | zero => simp
    | succ m =>
      simp only [List.cons_append, List.take, List.append_eq]
      rw [ih m (by simpa using hn)]

theorem take_append_ge (a b : List Char) : ∀ n, a.length ≤ n → (a ++ b).take n = a ++ b.take (n - a.length) := by
  induction a with
  | nil => intro n _; simp
  | cons c a ih =>
    intro n hn
    cases n with
    | zero => simp at hn
    | succ m =>
      simp only [List.cons_append, List.take, List.length_cons, List.append_eq]
      rw [ih m (by simpa using hn)]
      simp [Nat.succ_sub_succ]

theorem drop_append_le (a b : List Char) : ∀ n, n ≤ a.length → (a ++ b).drop n = a.drop n ++ b := by
  induction a with
  | nil =>
    intro n hn
    have : n = 0 := Nat.le_zero.mp hn
    subst this; simp
  | cons c a ih =>
    intro n hn
    cases n with
    | zero => simp
    | succ m =>
      simp only [List.cons_append, List.drop]
      exact ih m (by simpa using hn)

theorem drop_append_ge (a b : List Char) : ∀ n, a.length ≤ n → (a ++ b).drop n = b.drop (n - a.length) := by
  induction a with
  | nil => intro n _; simp
  | cons c a ih =>
    intro n hn
    cases n with
    | zero => simp at hn
    | succ m =>
      simp only [List.cons_append, List.drop, List.length_cons, List.append_eq]
      rw [ih m (by simpa using hn)]
      simp [Nat.succ_sub_succ]

theorem isPre_left_of_append (q a b : List Char) (h : q.isPrefixOf (a ++ b) = true)
    (hl : q.length ≤ a.length) : q.isPrefixOf a = true := by
  rw [isPre_iff_take] at h ⊢
  rw [take_append_le a b q.length hl] at h
  exact h

theorem left_isPre_of_append (q a b : List Char) (h : q.isPrefixOf (a ++ b) = true)
    (hl : a.length ≤ q.length) : a.isPrefixOf q = true := by
  rw [isPre_iff_take] at h
  rw [take_append_ge a b q.length hl] at h
  rw [← h]
  exact isPre_append_self a _

theorem drop_eq_cons (p : List Char) : ∀ k, k < p.length → ∃ c, p.drop k = c :: p.drop (k + 1) := by
  induction p with
  | nil => intro k hk; simp at hk
  | cons c p ih =>
    intro k hk
    cases k with
    | zero => exact ⟨c, rfl⟩
    | succ m =>
      simp only [List.drop]
      exact ih m (by simpa using hk)

theorem containsSub_false_iff (p : List Char) :
    ∀ s : List Char, containsSub p s = false ↔ ∀ q, p.isPrefixOf (s.drop q) = false := by
  intro s
  induction s with
  | nil =>
    simp only [containsSub, List.drop_nil]
    constructor
    · intro h q; exact h
    · intro h; exact h 0
  | cons c rest ih =>
    simp only [containsSub, Bool.or_eq_false_iff]
    constructor
    · rintro ⟨h0, hr⟩ q
      cases q with
      | zero => exact h0
      | succ m => exact (ih.mp hr) m
    · intro h
      refine ⟨h 0, ih.mpr fun m => h (m + 1)⟩

theorem containsSub_of_drop (p s : List Char) (q : Nat)
    (h : p.isPrefixOf (s.drop q) = true) : containsSub p s = true := by
  cases hc : containsSub p s with
  | true => rfl
  | false =>
    have := (containsSub_false_iff p s).mp hc q
    rw [this] at h
    exact absurd h (by simp)

theorem containsSub_append_self (q x : List Char) : containsSub q (q ++ x) = true := by
  cases q with
  | nil =>
    cases x with
    | nil => rfl
    | cons c r => simp [containsSub, List.isPrefixOf]
  | cons c q' => simp [containsSub, isPre_append_self]

theorem pyReplaceF_fuel (old new : List Char) :
    ∀ f g s, s.length ≤ f → s.length ≤ g → pyReplaceF old new f s = pyReplaceF old new g s := by
  intro f
  induction f with
  | zero =>
    intro g s hf _
    have hs : s = [] := List.length_eq_zero.mp (Nat.le_zero.mp hf)
    subst hs
    cases g <;> rfl
  | succ f ih =>
    intro g s hf hg
    cases s with
    | nil => cases g <;> rfl
    | cons c rest =>
      obtain ⟨g', rfl⟩ : ∃ g', g = g' + 1 := ⟨g - 1, by simp at hg; omega⟩
      simp only [pyReplaceF]
      by_cases h : old ≠ [] ∧ old.isPrefixOf (c :: rest) = true
      · rw [if_pos h, if_pos h]
        have hop : 0 < old.length := List.length_pos.mpr h.1
        congr 1
        apply ih
        · simp only [List.length_drop, List.length_cons]
          simp only [List.length_cons] at hf
          omega
        · simp only [List.length_drop, List.length_cons]
          simp only [List.length_cons] at hg
          omega
      · rw [if_neg h, if_neg h]
        congr 1
        apply ih
        · simp only [List.length_cons] at hf; omega
        · simp only [List.length_cons] at hg; omega

theorem pyReplace_nil (old new : List Char) : pyReplace old new [] = [] := rfl

theorem pyReplace_cons_match (old new : List Char) (c : Char) (rest : List Char)
    (h1 : old ≠ []) (h2 : old.isPrefixOf (c :: rest) = true) :
    pyReplace old new (c :: rest) = new ++ pyReplace old new ((c :: rest).drop old.length) := by
  have hop : 0 < old.length := List.length_pos.mpr h1
  show pyReplaceF old new (c :: rest).length (c :: rest) = _
  simp only [List.length_cons, pyReplaceF]
  rw [if_pos ⟨h1, h2⟩]
  congr 1
  exact pyReplaceF_fuel old new rest.length _ _
    (by simp only [List.length_drop, List.length_cons]; omega) le_rfl

theorem pyReplace_cons_nomatch (old new : List Char) (c : Char) (rest : List Char)
    (h : ¬ (old ≠ [] ∧ old.isPrefixOf (c :: rest) = true)) :
    pyReplace old new (c :: rest) = c :: pyReplace old new rest := by
  show pyReplaceF old new (c :: rest).length (c :: rest) = _
  simp only [List.length_cons, pyReplaceF]
  rw [if_neg h]
  rfl

theorem pyReplace_id_of_no_match (old new : List Char) :
    ∀ s, containsSub old s = false → pyReplace old new s = s := by
  intro s
  induction s with
  | nil => intro _; rfl
  | cons c rest ih =>
    intro h
    simp only [containsSub, Bool.or_eq_false_iff] at h
    rw [pyReplace_cons_nomatch old new c rest (by simp [h.1])]
    rw [ih h.2]

theorem firstMatchIdx_none_iff (p : List Char) (h1 : p ≠ []) :
    ∀ s, firstMatchIdx p s = none ↔ containsSub p s = false := by
  intro s
  induction s with
  | nil =>
    simp only [firstMatchIdx, containsSub]
    cases p with
    | nil => exact absurd rfl h1
    | cons a as => simp [List.isPrefixOf]
  | cons c rest ih =>
    simp only [firstMatchIdx, containsSub]
    by_cases hp : p.isPrefixOf (c :: rest) = true
    · rw [if_pos hp]; simp [hp]
    · have hp' : p.isPrefixOf (c :: rest) = false := by
        revert hp; cases p.isPrefixOf (c :: rest) <;> simp
      rw [if_neg hp]
      simp [hp', Option.map_eq_none', ih]

theorem pyReplace_take_drop (p r : List Char) (h1 : p ≠ []) :
    ∀ s i, firstMatchIdx p s = some i →
      pyReplace p r s = s.take i ++ r ++ pyReplace p r (s.drop (i + p.length)) := by
  intro s
  induction s with
  | nil => intro i h; simp [firstMatchIdx] at h
  | cons c rest ih =>
    intro i h
    by_cases hp : p.isPrefixOf (c :: rest) = true
    · simp only [firstMatchIdx, if_pos hp] at h
      obtain rfl : i = 0 := (Option.some.inj h).symm
      rw [pyReplace_cons_match p r c rest h1 hp]
      simp
    · simp only [firstMatchIdx, if_neg hp] at h
      obtain ⟨j, hj, rfl⟩ : ∃ j, firstMatchIdx p rest = some j ∧ i = j + 1 := by
        cases hfm : firstMatchIdx p rest with
        | none => rw [hfm] at h; simp at h
        | some j =>
          rw [hfm] at h
          simp only [Option.map_some'] at h
          exact ⟨j, rfl, (Option.some.inj h).symm⟩
      rw [pyReplace_cons_nomatch p r c rest (fun hc => hp hc.2)]
      rw [ih j hj]
      have harith : j + 1 + p.length = (j + p.length) + 1 := by omega
      rw [harith]
      simp [List.take, List.drop, List.cons_append]

theorem replaceAllAux_eq (p r : List Char) (h1 : p ≠ []) :
    ∀ f s, s.length ≤ f → replaceAllAux p r f s = pyReplace p r s := by
  intro f
  induction f with
  | zero =>
    intro s hf
    have hs : s = [] := List.length_eq_zero.mp (Nat.le_zero.mp hf)
    subst hs; rfl
  | succ f ih =>
    intro s hf
    cases hfm : firstMatchIdx p s with
    | none =>
      simp only [replaceAllAux, hfm]
      exact (pyReplace_id_of_no_match p r s ((firstMatchIdx_none_iff p h1 s).mp hfm)).symm
    | some i =>
      simp only [replaceAllAux, hfm]
      rw [pyReplace_take_drop p r h1 s i hfm]
      have hop : 0 < p.length := List.length_pos.mpr h1
      rw [ih (s.drop (i + p.length)) (by simp only [List.length_drop]; omega)]

theorem pyReplace_contains_new (old new : List Char) (h1 : old ≠ []) :
    ∀ s, containsSub old s = true → containsSub new (pyReplace old new s) = true := by
  intro s
  induction s with
  | nil =>
    intro h
    cases old with
    | nil => exact absurd rfl h1
    | cons a as => simp [containsSub, List.isPrefixOf] at h
  | cons c rest ih =>
    intro h
    by_cases hp : old.isPrefixOf (c :: rest) = true
    · rw [pyReplace_cons_match old new c rest h1 hp]
      exact containsSub_append_self new _
    · have hp' : old.isPrefixOf (c :: rest) = false := by
        revert hp; cases old.isPrefixOf (c :: rest) <;> simp
      rw [pyReplace_cons_nomatch old new c rest (fun hc => hp hc.2)]
      simp only [containsSub, hp', Bool.false_or] at h
      simp [containsSub, ih h]

theorem suffix_stable (old new : List Char)
    (hA : ∀ k, k < old.length → 0 < k → (old.drop k).isPrefixOf new = false)
    (hB : ∀ k, k < old.length → 0 < k → new.isPrefixOf (old.drop k) = false) :
    ∀ s k, k < old.length → 0 < k →
      (old.drop k).isPrefixOf (pyReplace old new s) = true → (old.drop k).isPrefixOf s = true := by
  intro s
  induction s with
  | nil =>
    intro k hk _ hpre
    rw [pyReplace_nil] at hpre
    obtain ⟨c, hd⟩ := drop_eq_cons old k hk
    rw [hd] at hpre
    simp [List.isPrefixOf] at hpre
  | cons c rest ih =>
    intro k hk hk0 hpre
    by_cases hp : old ≠ [] ∧ old.isPrefixOf (c :: rest) = true
    · rw [pyReplace_cons_match old new c rest hp.1 hp.2] at hpre
      by_cases hl : (old.drop k).length ≤ new.length
      · have hfalse := isPre_left_of_append _ _ _ hpre hl
        rw [hA k hk hk0] at hfalse
        exact absurd hfalse (by simp)
      · have hfalse := left_isPre_of_append _ _ _ hpre (by omega)
        rw [hB k hk hk0] at hfalse
        exact absurd hfalse (by simp)
    · rw [pyReplace_cons_nomatch old new c rest hp] at hpre
      obtain ⟨d, hd⟩ := drop_eq_cons old k hk
      rw [hd] at hpre ⊢
      simp only [List.isPrefixOf, Bool.and_eq_true, beq_iff_eq] at hpre
      obtain ⟨hdc, htl⟩ := hpre
      subst hdc
      by_cases hkk : k + 1 < old.length
      · have hrec := ih (k + 1) hkk (by omega) htl
        simp [List.isPrefixOf, hrec]
      · have hnil : old.drop (k + 1) = [] := List.drop_eq_nil_of_le (by omega)
        rw [hnil]
        simp [List.isPrefixOf]

theorem pyReplace_no_old (old new : List Char) (h1 : old ≠ [])
    (hin : containsSub old new = false)
    (hC : ∀ j, j < new.length → (new.drop j).isPrefixOf old = false)
    (hA : ∀ k, k < old.length → 0 < k → (old.drop k).isPrefixOf new = false)
    (hB : ∀ k, k < old.length → 0 < k → new.isPrefixOf (old.drop k) = false) :
    ∀ n s, s.length ≤ n → containsSub old (pyReplace old new s) = false := by
  intro n
  induction n with
  | zero =>
    intro s hs
    have hnil : s = [] := List.length_eq_zero.mp (Nat.le_zero.mp hs)
    subst hnil
    rw [pyReplace_nil]
    cases old with
    | nil => exact absurd rfl h1
    | cons a as => simp [containsSub, List.isPrefixOf]
  | succ n ih =>
    intro s hs
    cases s with
    | nil =>
      rw [pyReplace_nil]
      cases old with
      | nil => exact absurd rfl h1
      | cons a as => simp [containsSub, List.isPrefixOf]
    | cons c rest =>
      have hop : 0 < old.length := List.length_pos.mpr h1
      by_cases hp : old ≠ [] ∧ old.isPrefixOf (c :: rest) = true
      · rw [pyReplace_cons_match old new c rest hp.1 hp.2]
        have hO : containsSub old (pyReplace old new ((c :: rest).drop old.length)) = false := by
          apply ih
          simp only [List.length_drop, List.length_cons]
          simp only [List.length_cons] at hs
          omega
        rw [containsSub_false_iff]
        intro q
        by_cases hq : q < new.length
        · rw [drop_append_le new _ q (by omega)]
          cases hres : old.isPrefixOf
              (new.drop q ++ pyReplace old new ((c :: rest).drop old.length)) with
          | false => rfl
          | true =>
            exfalso
            by_cases hl : old.length ≤ (new.drop q).length
            · have h2 := isPre_left_of_append _ _ _ hres hl
              have h3 := containsSub_of_drop old new q h2
              rw [h3] at hin
              exact absurd hin (by simp)
            · have h2 := left_isPre_of_append _ _ _ hres (by omega)
              rw [hC q hq] at h2
              exact absurd h2 (by simp)
        · rw [drop_append_ge new _ q (by omega)]
          cases hres : old.isPrefixOf
              ((pyReplace old new ((c :: rest).drop old.length)).drop (q - new.length)) with
          | false => rfl
          | true =>
            exfalso
            have h3 := containsSub_of_drop old _ _ hres
            rw [h3] at hO
            exact absurd hO (by simp)
      · rw [pyReplace_cons_nomatch old new c rest hp]
        have hO : containsSub old (pyReplace old new rest) = false := by
          apply ih
          simp only [List.length_cons] at hs
          omega
        simp only [containsSub, Bool.or_eq_false_iff]
        refine ⟨?_, hO⟩
        cases hres : old.isPrefixOf (c :: pyReplace old new rest) with
        | false => rfl
        | true =>
          exfalso
          cases hold : old with
          | nil => exact h1 hold
          | cons o0 otl =>
            rw [hold] at hres
            simp only [List.isPrefixOf, Bool.and_eq_true, beq_iff_eq] at hres
            obtain ⟨ho0, hotl⟩ := hres
            have hdrop1 : old.drop 1 = otl := by rw [hold]; rfl
            by_cases hlen : 1 < old.length
            · have hstep := suffix_stable old new hA hB rest 1 hlen (by omega)
                (by rw [hdrop1, hold]; exact hotl)
              rw [hdrop1] at hstep
              apply hp
              refine ⟨h1, ?_⟩
              rw [hold]
              simp [List.isPrefixOf, ho0, hstep]
            · have hol : old.length = 1 := by omega
              have hotln : otl = [] := by
                have hlo : (o0 :: otl).length = 1 := by rw [← hold]; exact hol
                simp only [List.length_cons] at hlo
                exact List.length_eq_zero.mp (by omega)
              apply hp
              refine ⟨h1, ?_⟩
              rw [hold, hotln]
              simp [List.isPrefixOf, ho0]

theorem pyReplace_idem (old new : List Char) (h1 : old ≠ [])
    (hin : containsSub old new = false)
    (hC : ∀ j, j < new.length → (new.drop j).isPrefixOf old = false)
    (hA : ∀ k, k < old.length → 0 < k → (old.drop k).isPrefixOf new = false)
    (hB : ∀ k, k < old.length → 0 < k → new.isPrefixOf (old.drop k) = false) :
    ∀ s, pyReplace old new (pyReplace old new s) = pyReplace old new s := by
  intro s
  exact pyReplace_id_of_no_match old new _
    (pyReplace_no_old old new h1 hin hC hA hB s.length s le_rfl)

/-- C1: the claim states that the program applies each rule of the `fixes`
table to the text, so that each rule's effect is present in the final text.
The code contradicts this: `fixes` is bound but never applied (no `re.sub`
call exists), so on `c1Input` — which the ListFollowing rule of the table
matches — the program changes nothing and produces no `return create(`
call.  This theorem evaluates the code at that failing input. -/
theorem c1_rules_not_applied :
    fixProtosTransform c1Input = c1Input ∧ countSub retCreate (fixProtosTransform c1Input) = 0 := by
  constructor <;> decide

/-- C2: the text written back is exactly the input with every occurrence of
the literal old fragment replaced by the new fragment — the program's whole
transformation is extensionally equal to the single literal replacement
(`specTransform` is the specification-side definition), and the `fixes`
table has no effect on the output. -/
theorem c2_transform_is_single_replace : ∀ t, fixProtosTransform t = specTransform t := by
  intro t
  exact (replaceAllAux_eq oldFrag newFrag (by decide) t.length t le_rfl).symm

/-- C3: the claim states that an `async sendOTP` body containing the literal
scenario 2 fragment is rewritten to a `create(SendOTPResponseSchema, ...)`
call.  The code contradicts this: the SendOTP rule lives only in the unused
`fixes` table, so on `c3Input` the program changes nothing and the expected
replacement text does not occur in the output. -/
theorem c3_sendOTP_not_rewritten :
    fixProtosTransform c3Input = c3Input ∧
      containsSub c3Expected (fixProtosTransform c3Input) = false := by
  constructor <;> decide

/-- C4: the claim states that the two identical `return { users };`
occurrences of `c4Input` are rewritten to two different schemas selected by
forward lookahead.  The code contradicts this: the lookahead rules live
only in the unused `fixes` table, so the program changes nothing and no
`return create(` appears in the output. -/
theorem c4_lookahead_not_applied :
    fixProtosTransform c4Input = c4Input ∧ countSub retCreate (fixProtosTransform c4Input) = 0 := by
  constructor <;> decide

/-- C5: every input containing the literal scenario 1 fragment (the old
fragment of the `content.replace` call) produces an output containing the
replacement fragment in its place. -/
theorem c5_literal_replacement_applied :
    ∀ t, containsSub oldFrag t = true → containsSub newFrag (fixProtosTransform t) = true := by
  intro t h
  exact pyReplace_contains_new oldFrag newFrag (by decide) t h

/-- Witness for C5 at a concrete input containing the old fragment. -/
theorem c5_witness :
    containsSub oldFrag oldFrag = true ∧
      containsSub newFrag (fixProtosTransform oldFrag) = true :=
  ⟨by decide, c5_literal_replacement_applied oldFrag (by decide)⟩

/-- C6: the transformation is idempotent — applying the program's text
transformation to its own output yields the same text again, because the
old fragment never reappears after one application (it does not occur in
the replacement, and no boundary overlap can recreate it). -/
theorem c6_idempotent :
    ∀ t, fixProtosTransform (fixProtosTransform t) = fixProtosTransform t := by
  intro t
  exact pyReplace_idem oldFrag newFrag (by decide) (by decide) (by decide) (by decide) (by decide) t

/-- C7: the claim states that the number of `return create(` occurrences in
the output equals the number of rules of `fixes` with a match in the input.
The code contradicts this: on `c7Input`, which the SendOTP rule of the
table matches (one matching rule), the program changes nothing and the
output contains zero occurrences of `return create(`. -/
theorem c7_create_count_zero :
    countSub retCreate (fixProtosTransform c7Input) = 0 ∧
      fixProtosTransform c7Input = c7Input := by
  constructor <;> decide

/-- C8: on an input where the pattern has zero matches the program changes
nothing — the text is written back character-for-character unchanged, no
error is raised, the file is still written and the completion notice is
still printed (success is reported even though nothing fired). -/
theorem c8_zero_match_no_effect (t : List Char) (fs : String → Option (List Char))
    (h : containsSub oldFrag t = false) (hfs : fs targetPath = some t) :
    fixProtosTransform t = t ∧
      runFixProtos fs true =
        RunOutcome.ok (fun p => if p = targetPath then some t else fs p) completionNotice := by
  have hid : fixProtosTransform t = t := pyReplace_id_of_no_match oldFrag newFrag t h
  refine ⟨hid, ?_⟩
  simp [runFixProtos, hfs, hid]

/-- Witness for C8 at a concrete input with zero matches. -/
theorem c8_witness :
    containsSub oldFrag (("hello").data) = false ∧
      (fixProtosTransform (("hello").data) = ("hello").data ∧
        runFixProtos (fun q => if q = targetPath then some (("hello").data) else none) true =
          RunOutcome.ok
            (fun p =>
              if p = targetPath then some (("hello").data)
              else (fun q => if q = targetPath then some (("hello").data) else none) p)
            completionNotice) :=
  ⟨by decide,
   c8_zero_match_no_effect (("hello").data)
     (fun q => if q = targetPath then some (("hello").data) else none) (by decide) (by simp)⟩

/-- C9: if the target file is missing or unreadable the read raises an
IOError that nothing catches, so the run aborts with no write and no print;
a write failure likewise propagates unhandled. -/
theorem c9_io_failure (fs : String → Option (List Char)) (w : Bool) (t : List Char) :
    (fs targetPath = none → runFixProtos fs w = RunOutcome.err fs "") ∧
    (fs targetPath = some t → runFixProtos fs false = RunOutcome.err fs "") := by
  constructor
  · intro h; simp [runFixProtos, h]
  · intro h; simp [runFixProtos, h]

/-- Witness for C9: a concrete missing file and a concrete unwritable file. -/
theorem c9_witness :
    runFixProtos (fun _ => none) true = RunOutcome.err (fun _ => none) "" ∧
      runFixProtos (fun _ => some []) false = RunOutcome.err (fun _ => some []) "" :=
  ⟨(c9_io_failure (fun _ => none) true []).1 rfl,
   (c9_io_failure (fun _ => some []) true []).2 rfl⟩

/-- C10: on a successful run the only observable effects are overwriting the
single hardcoded target file with the transformed text and printing the one
completion notice; every other path of the filesystem is untouched (and the
model takes no flags or environment input). -/
theorem c10_frame (fs : String → Option (List Char)) (t : List Char)
    (h : fs targetPath = some t) :
    runFixProtos fs true =
        RunOutcome.ok (fun p => if p = targetPath then some (fixProtosTransform t) else fs p)
          completionNotice ∧
      (fun p => if p = targetPath then some (fixProtosTransform t) else fs p) targetPath =
        some (fixProtosTransform t) ∧
      ∀ p, p ≠ targetPath →
        (fun p => if p = targetPath then some (fixProtosTransform t) else fs p) p = fs p := by
  refine ⟨by simp [runFixProtos, h], by simp, ?_⟩
  intro p hp
  simp [hp]

/-- Witness for C10 at a concrete filesystem holding the target file. -/
theorem c10_witness :
    runFixProtos (fun q => if q = targetPath then some [] else none) true =
      RunOutcome.ok
        (fun p =>
          if p = targetPath then some (fixProtosTransform [])
          else (fun q => if q = targetPath then some [] else none) p)
        completionNotice :=
  (c10_frame (fun q => if q = targetPath then some [] else none) [] (by simp)).1
